import Mathlib

/-!
# Verification of `XorData` (`src/XorConstant.hpp`)

A shallow embedding of the compile-time obfuscated-constant holder
`enc::XorConstant<T, ConstantValue, Seed>` and of the `MakeXorConstant`
construction macro, with proofs of the specified properties.

Machine integers are modelled as `Nat` with explicit reduction modulo
`2 ^ 64`; the 128-bit SSE lane `__m128i` is modelled as a pair of 64-bit
lanes, and each intrinsic used by the source is embedded lane-wise.
-/

namespace XorData

/-- `2 ^ 64`, the modulus of all 64-bit wraparound arithmetic. -/
def U64MOD : Nat := 2 ^ 64

/-- The 128-bit SSE register `__m128i`, as its two 64-bit lanes. -/
structure M128i where
  lo : Nat
  hi : Nat
  deriving DecidableEq, Repr

/-- `_mm_set1_epi64x`: broadcast one 64-bit value to both lanes. -/
def mm_set1_epi64x (x : Nat) : M128i :=
  ⟨x % U64MOD, x % U64MOD⟩

/-- `_mm_xor_si128`: lane-wise (indeed bit-wise) exclusive or. -/
def mm_xor_si128 (a b : M128i) : M128i :=
  ⟨a.lo ^^^ b.lo, a.hi ^^^ b.hi⟩

/-- `_mm_add_epi64`: lane-wise 64-bit wraparound addition. -/
def mm_add_epi64 (a b : M128i) : M128i :=
  ⟨(a.lo + b.lo) % U64MOD, (a.hi + b.hi) % U64MOD⟩

/-- 64-bit wraparound subtraction on one lane. -/
def sub64 (a b : Nat) : Nat :=
  (a + (U64MOD - b % U64MOD)) % U64MOD

/-- `_mm_sub_epi64`: lane-wise 64-bit wraparound subtraction. -/
def mm_sub_epi64 (a b : M128i) : M128i :=
  ⟨sub64 a.lo b.lo, sub64 a.hi b.hi⟩

/-- `_mm_cvtsi128_si64`: read the low 64-bit lane. -/
def mm_cvtsi128_si64 (a : M128i) : Nat :=
  a.lo

/-- The FNV-1a 64-bit prime, used by the modelled hash. -/
def fnvPrime : Nat := 1099511628211

/-- The FNV-1a 64-bit offset basis, used by the modelled hash. -/
def fnvOffsetBasis : Nat := 14695981039346656037

/-- Modelled from the spec: `hash::fnv64<Basis>(path)` (its source,
`FnvHash.hpp`, is not under `src/`). The spec requires only a
deterministic, compile-time-evaluable 64-bit hash of the source file
path seeded by a build-wide basis; modelled as FNV-1a over the path's
bytes. -/
def fnv64 (basis : Nat) (path : List Nat) : Nat :=
  path.foldl (fun h b => ((h ^^^ b % 256) * fnvPrime) % U64MOD) (basis % U64MOD)

/-- Modelled from the spec: `hash::key64<Seed>()` (its source,
`FnvHash.hpp`, is not under `src/`). The spec calls it
`deriveKey(seed: uint64) -> uint64` and requires only a deterministic
64-bit hash; modelled as one FNV-1a round on the seed. -/
def key64 (seed : Nat) : Nat :=
  ((seed % U64MOD ^^^ fnvOffsetBasis) * fnvPrime) % U64MOD

/-- `__LINE__` at the definition of `XorConstant::XorKey`
(`src/XorConstant.hpp:82`): a constant of the header, identical for
every instantiation. -/
def xorKeyLine : Nat := 82

/-- `__LINE__` at the definition of `XorConstant::AddKey`
(`src/XorConstant.hpp:83`): a constant of the header, identical for
every instantiation. -/
def addKeyLine : Nat := 83

/-- `XorConstant::XorKey = hash::key64<Seed - __LINE__>()` with
`__LINE__ = 82`, the subtraction wrapping on `uint64_t`. -/
def XorKey (seed : Nat) : Nat :=
  key64 (sub64 seed xorKeyLine)

/-- `XorConstant::AddKey = hash::key64<Seed + __LINE__>()` with
`__LINE__ = 83`, the addition wrapping on `uint64_t`. -/
def AddKey (seed : Nat) : Nat :=
  key64 ((seed + addKeyLine) % U64MOD)

/-- `XorConstant::EncryptData(data)` for given key constants: broadcast
`data`, xor with `XorKey`, add `AddKey`, lane-wise mod `2 ^ 64`. -/
def EncryptData (xorKey addKey data : Nat) : M128i :=
  let result := mm_set1_epi64x data
  let result := mm_xor_si128 result (mm_set1_epi64x xorKey)
  let result := mm_add_epi64 result (mm_set1_epi64x addKey)
  result

/-- `XorConstant::DecryptData()` for given key constants: subtract
`AddKey`, xor with `XorKey`, return the low lane. -/
def DecryptData (xorKey addKey : Nat) (stored : M128i) : Nat :=
  let result := stored
  let result := mm_sub_epi64 result (mm_set1_epi64x addKey)
  let result := mm_xor_si128 result (mm_set1_epi64x xorKey)
  mm_cvtsi128_si64 result

/-- An instance of `enc::XorConstant<T, ConstantValue, Seed>`: the
`Seed` template argument (which fixes the two compile-time key
constants) together with the stored member `m_encryptedData`. -/
structure XorConstant where
  seed : Nat
  m_encryptedData : M128i
  deriving DecidableEq, Repr

/-- The `constexpr XorConstant()` constructor:
`EncryptData(ConstantValue)` with the class's key constants. -/
def mkXorConstant (seed constantValue : Nat) : XorConstant :=
  ⟨seed, EncryptData (XorKey seed) (AddKey seed) constantValue⟩

/-- `XorConstant::Get()`: the stored (still encrypted) low lane,
without reversing the transform. The state is returned unchanged: the
method only reads `m_encryptedData`. -/
def Get (c : XorConstant) : Nat × XorConstant :=
  (mm_cvtsi128_si64 c.m_encryptedData, c)

/-- `XorConstant::GetCrypt()`: `DecryptData()` on the stored state with
the class's key constants. The state is returned unchanged: the method
only reads `m_encryptedData`. -/
def GetCrypt (c : XorConstant) : Nat × XorConstant :=
  (DecryptData (XorKey c.seed) (AddKey c.seed) c.m_encryptedData, c)

/-- The construction path of the `MakeXorConstant(value)` macro at a
call site: the seed is `hash::fnv64<UNIQUE_SEED64>(__FILE__)` — a hash
of the file path only. The call site's line number appears nowhere in
the macro (`src/XorConstant.hpp:6`), so it is an unused argument here. -/
def mkAtCallSite (basis : Nat) (filePath : List Nat) (_declLine : Nat)
    (value : Nat) : XorConstant :=
  mkXorConstant (fnv64 basis filePath) value

/-- The category of the C++ type argument `T`, as far as
`std::is_arithmetic` and the value casts distinguish it. -/
inductive CType where
  | signedInt (bits : Nat)
  | unsignedInt (bits : Nat)
  | floatingPoint
  | pointer
  | classType
  deriving DecidableEq, Repr

/-- `std::is_arithmetic<T>::value`: true for integral and
floating-point types, false otherwise. -/
def isArithmetic : CType → Bool
  | .signedInt _ => true
  | .unsignedInt _ => true
  | .floatingPoint => true
  | .pointer => false
  | .classType => false

/-- A C++ arithmetic value: an integer already within its type's
range, or a floating-point value modelled as an exact rational. -/
inductive CValue where
  | intVal (i : Int)
  | floatVal (q : ℚ)
  deriving DecidableEq, Repr

/-- Truncation toward zero, the rounding C++ applies when converting a
floating-point value to an integer type. -/
def truncTowardZero (q : ℚ) : Int :=
  Int.tdiv q.num q.den

/-- `static_cast<uint64_t>(value)` in the `MakeXorConstant` macro.
For an integer the conversion is reduction modulo `2 ^ 64`; for a
floating-point value it truncates toward zero (C++ defines the result
only when the truncated value fits in `[0, 2 ^ 64)`; the model is used
under that hypothesis, and clamps negatives to `0` outside it). -/
def staticCastToU64 : CValue → Nat
  | .intVal i => (i % (2 ^ 64 : Int)).toNat
  | .floatVal q => (truncTowardZero q).toNat

/-- `static_cast<T>(n)` applied by the accessors to a 64-bit word:
modular reduction to the target width, two's-complement
reinterpretation for signed types, exact integer-to-rational cast for
floating point (exact in C++ for values below `2 ^ 53`, the range the
theorems use). The non-arithmetic rows are rejected by the class's
`static_assert` and never consulted. -/
def staticCastFromU64 (t : CType) (n : Nat) : CValue :=
  match t with
  | .unsignedInt bits => .intVal ((n % 2 ^ bits : Nat) : Int)
  | .signedInt bits =>
      .intVal (if n % 2 ^ bits < 2 ^ (bits - 1)
               then ((n % 2 ^ bits : Nat) : Int)
               else ((n % 2 ^ bits : Nat) : Int) - (2 ^ bits : Int))
  | .floatingPoint => .floatVal (n : ℚ)
  | .pointer => .intVal 0
  | .classType => .intVal 0

/-- The diagnostic text of the `static_assert` at
`src/XorConstant.hpp:19`. -/
def staticAssertMsg : String :=
  "Type T must be either an integral or a floating-point type."

/-- `enc::MakeXorConstantImpl<T, ConstantValue, Seed>()`: instantiating
`XorConstant` compiles only when `T` is arithmetic (the `static_assert`
at `src/XorConstant.hpp:19`); a failed instantiation is a build error,
modelled as `Except.error` carrying the diagnostic. -/
def MakeXorConstantImpl (t : CType) (seed constantValue : Nat) :
    Except String XorConstant :=
  if isArithmetic t then .ok (mkXorConstant seed constantValue)
  else .error staticAssertMsg

/-- The whole `MakeXorConstant(value)` macro for a value of type `t`:
`static_cast<uint64_t>(value)` as the constant, and
`hash::fnv64<UNIQUE_SEED64>(__FILE__)` as the seed. -/
def MakeXorConstantMacro (t : CType) (basis : Nat) (filePath : List Nat)
    (v : CValue) : Except String XorConstant :=
  MakeXorConstantImpl t (fnv64 basis filePath) (staticCastToU64 v)

/-- `GetCrypt()` on an instance declared with value type `t`:
`static_cast<T>(DecryptData())`. -/
def GetCryptTyped (t : CType) (c : XorConstant) : CValue × XorConstant :=
  (staticCastFromU64 t (GetCrypt c).1, (GetCrypt c).2)

/-- The low lane of `EncryptData` as a function on 64-bit words, for
stating that the transform is a bijection. -/
def encrypt64 (x a : Nat) (v : Fin U64MOD) : Fin U64MOD :=
  ⟨mm_cvtsi128_si64 (EncryptData x a v.val), Nat.mod_lt _ (by simp [U64MOD])⟩

/-! ## Basic lemmas about the embedded operations -/

lemma U64MOD_pos : 0 < U64MOD := by
  simp [U64MOD]

lemma xor_lt_U64MOD {x y : Nat} (hx : x < U64MOD) (hy : y < U64MOD) :
    x ^^^ y < U64MOD :=
  Nat.xor_lt_two_pow hx hy

lemma key64_lt (s : Nat) : key64 s < U64MOD :=
  Nat.mod_lt _ U64MOD_pos

lemma XorKey_lt (s : Nat) : XorKey s < U64MOD :=
  key64_lt _

lemma AddKey_lt (s : Nat) : AddKey s < U64MOD :=
  key64_lt _

lemma M128i_eq {a b : M128i} (h1 : a.lo = b.lo) (h2 : a.hi = b.hi) :
    a = b := by
  cases a; cases b; simp_all

lemma EncryptData_lo (x a v : Nat) :
    (EncryptData x a v).lo
      = ((v % U64MOD ^^^ x % U64MOD) + a % U64MOD) % U64MOD :=
  rfl

lemma EncryptData_hi_eq_lo (x a v : Nat) :
    (EncryptData x a v).hi = (EncryptData x a v).lo :=
  rfl

lemma EncryptData_lo_lt (x a v : Nat) :
    (EncryptData x a v).lo < U64MOD := by
  rw [EncryptData_lo]; exact Nat.mod_lt _ U64MOD_pos

lemma DecryptData_eq (x a : Nat) (st : M128i) :
    DecryptData x a st
      = (st.lo + (U64MOD - a % U64MOD % U64MOD)) % U64MOD ^^^ x % U64MOD :=
  rfl

lemma DecryptData_eq' (x a : Nat) (st : M128i) :
    DecryptData x a st
      = (st.lo + (U64MOD - a % U64MOD)) % U64MOD ^^^ x % U64MOD := by
  rw [DecryptData_eq, Nat.mod_mod_of_dvd _ dvd_rfl]

lemma add_mod_sub_cancel {w : Nat} (a : Nat) (hw : w < U64MOD) :
    ((w + a % U64MOD) % U64MOD + (U64MOD - a % U64MOD)) % U64MOD = w := by
  have ha : a % U64MOD < U64MOD := Nat.mod_lt _ U64MOD_pos
  rw [Nat.mod_add_mod]
  have h1 : w + a % U64MOD + (U64MOD - a % U64MOD) = w + U64MOD := by omega
  rw [h1, Nat.add_mod_right, Nat.mod_eq_of_lt hw]

lemma DecryptData_EncryptData (x a v : Nat) (hv : v < U64MOD) :
    DecryptData x a (EncryptData x a v) = v := by
  have hx : x % U64MOD < U64MOD := Nat.mod_lt _ U64MOD_pos
  have hw : v ^^^ x % U64MOD < U64MOD := xor_lt_U64MOD hv hx
  rw [DecryptData_eq', EncryptData_lo, Nat.mod_eq_of_lt hv,
    add_mod_sub_cancel a hw, Nat.xor_cancel_right]

lemma encrypt64_injective (x a : Nat) :
    Function.Injective (encrypt64 x a) := by
  intro v₁ v₂ h
  have hlo : (EncryptData x a v₁.val).lo = (EncryptData x a v₂.val).lo :=
    congrArg Fin.val h
  have hst : EncryptData x a v₁.val = EncryptData x a v₂.val :=
    M128i_eq hlo (by rw [EncryptData_hi_eq_lo, EncryptData_hi_eq_lo, hlo])
  have h1 : DecryptData x a (EncryptData x a v₁.val)
      = DecryptData x a (EncryptData x a v₂.val) := by rw [hst]
  rw [DecryptData_EncryptData x a _ v₁.isLt,
    DecryptData_EncryptData x a _ v₂.isLt] at h1
  exact Fin.val_injective h1

/-! ## The claims -/

/-- C1. Round-trip law: for every 64-bit word `v` and every pair of
64-bit keys, decrypting (`GetCrypt`'s `DecryptData`) the state built by
construction (`EncryptData`) returns `v` exactly —
`((v XOR xorKey) + addKey mod 2^64 - addKey mod 2^64) XOR xorKey = v` —
and the transform is a bijection on 64-bit words. -/
theorem C1_round_trip (x a : Nat) :
    (∀ v : Nat, v < U64MOD → DecryptData x a (EncryptData x a v) = v) ∧
    Function.Bijective (encrypt64 x a) :=
  ⟨fun v hv => DecryptData_EncryptData x a v hv,
   Finite.injective_iff_bijective.mp (encrypt64_injective x a)⟩

/-- Witness for C1: the round trip evaluated at
`xorKey = 3`, `addKey = 5`, `v = 42`. -/
theorem C1_round_trip_witness :
    DecryptData 3 5 (EncryptData 3 5 42) = 42 :=
  (C1_round_trip 3 5).1 42 (by decide)

/-- C2. Construction effect: the constructor stores
`(value XOR xorKey) + addKey` with 64-bit wraparound arithmetic,
replicated identically across both 64-bit halves of the 128-bit cell;
`xorKey = key64(seed - 82)` and `addKey = key64(seed + 83)` (the
header's own line markers, wrapping on `uint64_t`); and both accessors
read only the low 64 bits (together with the seed-fixed keys). -/
theorem C2_construction_effect (seed v : Nat) (hv : v < U64MOD) :
    (mkXorConstant seed v).m_encryptedData.lo
        = ((v ^^^ XorKey seed) + AddKey seed) % U64MOD ∧
    (mkXorConstant seed v).m_encryptedData.hi
        = (mkXorConstant seed v).m_encryptedData.lo ∧
    XorKey seed = key64 (sub64 seed xorKeyLine) ∧
    AddKey seed = key64 ((seed + addKeyLine) % U64MOD) ∧
    (∀ c c' : XorConstant, c.seed = c'.seed →
        c.m_encryptedData.lo = c'.m_encryptedData.lo →
        (Get c).1 = (Get c').1 ∧ (GetCrypt c).1 = (GetCrypt c').1) := by
  refine ⟨?_, rfl, rfl, rfl, ?_⟩
  · simp only [mkXorConstant, EncryptData_lo]
    rw [Nat.mod_eq_of_lt hv, Nat.mod_eq_of_lt (XorKey_lt seed),
      Nat.mod_eq_of_lt (AddKey_lt seed)]
  · intro c c' h1 h2
    refine ⟨by simpa [Get, mm_cvtsi128_si64] using h2, ?_⟩
    simp [GetCrypt, DecryptData_eq', h1, h2]

/-- Witness for C2: the stored low lane at `seed = 7`, `v = 42`. -/
theorem C2_construction_effect_witness :
    (mkXorConstant 7 42).m_encryptedData.lo
      = ((42 ^^^ XorKey 7) + AddKey 7) % U64MOD :=
  (C2_construction_effect 7 42 (by decide)).1

/-- C3. Decrypting accessor: `GetCrypt` computes
`(stored - addKey) XOR xorKey` in that inverse order (64-bit modular
subtraction first, then exclusive-or) as a pure function of the stored
bits and the two seed-fixed keys, leaving the instance unchanged. -/
theorem C3_decrypting_accessor (c : XorConstant) :
    (GetCrypt c).1
        = ((c.m_encryptedData.lo + (U64MOD - AddKey c.seed)) % U64MOD)
            ^^^ XorKey c.seed ∧
    (GetCrypt c).2 = c := by
  refine ⟨?_, rfl⟩
  show DecryptData _ _ _ = _
  rw [DecryptData_eq', Nat.mod_eq_of_lt (AddKey_lt _),
    Nat.mod_eq_of_lt (XorKey_lt _)]

/-- C7. Raw accessor: `Get` returns the stored transformed bits (the
low lane) without applying the inverse transform — on a constructed
instance it returns the still-transformed `(v XOR xorKey) + addKey`
pattern — and has no side effect on the instance. -/
theorem C7_raw_accessor (seed v : Nat) (hv : v < U64MOD) :
    (∀ c : XorConstant, (Get c).1 = c.m_encryptedData.lo ∧ (Get c).2 = c) ∧
    (Get (mkXorConstant seed v)).1
      = ((v ^^^ XorKey seed) + AddKey seed) % U64MOD := by
  refine ⟨fun c => ⟨rfl, rfl⟩, ?_⟩
  show (EncryptData (XorKey seed) (AddKey seed) v).lo = _
  rw [EncryptData_lo, Nat.mod_eq_of_lt hv, Nat.mod_eq_of_lt (XorKey_lt seed),
    Nat.mod_eq_of_lt (AddKey_lt seed)]

/-- Witness for C7: the raw read of the instance built from
`seed = 7`, `v = 42` is the transformed pattern. -/
theorem C7_raw_accessor_witness :
    (Get (mkXorConstant 7 42)).1
      = ((42 ^^^ XorKey 7) + AddKey 7) % U64MOD :=
  (C7_raw_accessor 7 42 (by decide)).2

/-- C8. Idempotence and immutability of reads: neither accessor changes
`m_encryptedData` (or any state), and repeated calls — in any order —
return identical bits each time. -/
theorem C8_immutable_reads (c : XorConstant) :
    (Get c).2 = c ∧ (GetCrypt c).2 = c ∧
    (Get (Get c).2).1 = (Get c).1 ∧
    (GetCrypt (GetCrypt c).2).1 = (GetCrypt c).1 ∧
    (Get (GetCrypt c).2).1 = (Get c).1 ∧
    (GetCrypt (Get c).2).1 = (GetCrypt c).1 :=
  ⟨rfl, rfl, rfl, rfl, rfl, rfl⟩

/-- C4 counterexample: two instances of the same value `42`, built in
the same file (hence with the same seed) but declared on the distinct
lines `10` and `20`, have identical key pairs and identical stored bit
patterns: the `__LINE__` markers in the key derivation are the header's
own fixed lines `82`/`83`, and the `MakeXorConstant` macro feeds only
`__FILE__` into the seed, never the call site's line. -/
theorem C4_counterexample :
    (10 : Nat) ≠ 20 ∧
    mkAtCallSite fnvOffsetBasis [115, 114, 99] 10 42
      = mkAtCallSite fnvOffsetBasis [115, 114, 99] 20 42 :=
  ⟨by decide, rfl⟩

/-- C4 (amended). The line markers in the key derivation are fixed
constants of the header, so two instances built with the same value and
seed have identical keys and stored patterns regardless of the lines
they are declared on; key diversification comes only through the seed
(the hash of the source file path), distinct seeds giving distinct
stored patterns up to the hash's collision rate — witnessed here by two
distinct one-byte file paths. -/
theorem C4_keys_line_independent :
    (∀ (basis : Nat) (path : List Nat) (l₁ l₂ v : Nat),
        mkAtCallSite basis path l₁ v = mkAtCallSite basis path l₂ v) ∧
    mkAtCallSite fnvOffsetBasis [97] 10 42
      ≠ mkAtCallSite fnvOffsetBasis [98] 20 42 :=
  ⟨fun _ _ _ _ _ => rfl, by decide⟩

/-- C5 counterexample: with `xorKey = 1` and `addKey = 2^64 - 1` (both
nonzero), encrypting the value `0` stores
`(0 XOR 1) + (2^64 - 1) ≡ 0 (mod 2^64)` — a zero stored pattern. -/
theorem C5_counterexample :
    (1 : Nat) ≠ 0 ∧ U64MOD - 1 ≠ 0 ∧
    mm_cvtsi128_si64 (EncryptData 1 (U64MOD - 1) 0) = 0 := by
  refine ⟨by decide, by decide, by decide⟩

/-- C5 (amended). Encrypting the value `0` stores exactly
`(xorKey + addKey) mod 2^64`, which is nonzero precisely when the keys
do not sum to a multiple of `2^64`; in particular it is nonzero
whenever exactly one key is nonzero, the sole nonzero-key exception
being two nonzero keys summing to `2^64`. -/
theorem C5_zero_value (x a : Nat) (hx : x < U64MOD) (ha : a < U64MOD) :
    mm_cvtsi128_si64 (EncryptData x a 0) = (x + a) % U64MOD ∧
    ((x + a) % U64MOD ≠ 0 → mm_cvtsi128_si64 (EncryptData x a 0) ≠ 0) := by
  have h1 : mm_cvtsi128_si64 (EncryptData x a 0) = (x + a) % U64MOD := by
    show (EncryptData x a 0).lo = _
    rw [EncryptData_lo, Nat.zero_mod, Nat.zero_xor, Nat.mod_eq_of_lt hx,
      Nat.mod_eq_of_lt ha]
  exact ⟨h1, fun h => h1 ▸ h⟩

/-- Witness for C5 (amended) at `xorKey = 1`, `addKey = 2`: the stored
pattern for value `0` is nonzero. -/
theorem C5_zero_value_witness :
    mm_cvtsi128_si64 (EncryptData 1 2 0) ≠ 0 :=
  (C5_zero_value 1 2 (by decide) (by decide)).2 (by decide)

/-- C9. Failure semantics: instantiating with a non-arithmetic type is
rejected by the `static_assert` (a build-time diagnostic, modelled as
the `Except.error` branch), instantiation with an arithmetic type
always succeeds, and the runtime operations are total with 64-bit
wraparound results. -/
theorem C9_failure_semantics :
    (∀ (t : CType) (seed v : Nat), isArithmetic t = false →
        MakeXorConstantImpl t seed v = .error staticAssertMsg) ∧
    (∀ (t : CType) (seed v : Nat), isArithmetic t = true →
        MakeXorConstantImpl t seed v = .ok (mkXorConstant seed v)) ∧
    (∀ seed v : Nat, (Get (mkXorConstant seed v)).1 < U64MOD ∧
        (GetCrypt (mkXorConstant seed v)).1 < U64MOD) := by
  refine ⟨fun t seed v h => by simp [MakeXorConstantImpl, h],
    fun t seed v h => by simp [MakeXorConstantImpl, h],
    fun seed v => ⟨EncryptData_lo_lt _ _ _, ?_⟩⟩
  show DecryptData _ _ _ < U64MOD
  rw [DecryptData_eq']
  exact xor_lt_U64MOD (Nat.mod_lt _ U64MOD_pos) (Nat.mod_lt _ U64MOD_pos)

/-- Witness for C9: a pointer type is rejected with the
`static_assert`'s diagnostic. -/
theorem C9_failure_semantics_witness :
    MakeXorConstantImpl .pointer 7 42 = .error staticAssertMsg :=
  C9_failure_semantics.1 .pointer 7 42 rfl

lemma truncTowardZero_eq_floor {q : ℚ} (h : 0 ≤ q) :
    truncTowardZero q = ⌊q⌋ := by
  rw [truncTowardZero, Rat.floor_def]
  exact Int.tdiv_eq_ediv (Rat.num_nonneg.mpr h) (by positivity)

lemma GetCrypt_mkXorConstant (seed v : Nat) (hv : v < U64MOD) :
    (GetCrypt (mkXorConstant seed v)).1 = v :=
  DecryptData_EncryptData _ _ _ hv

lemma float_scenario (basis : Nat) (path : List Nat) :
    (MakeXorConstantMacro .floatingPoint basis path
        (.floatVal (157 / 50))).map
        (fun c => (GetCryptTyped .floatingPoint c).1)
      = .ok (.floatVal 3) := by
  have h1 : staticCastToU64 (.floatVal (157 / 50)) = 3 := by
    show (truncTowardZero (157 / 50)).toNat = 3
    rw [truncTowardZero_eq_floor (by norm_num)]
    norm_num
    decide
  have h2 : (GetCrypt (mkXorConstant (fnv64 basis path) 3)).1 = 3 :=
    GetCrypt_mkXorConstant _ 3 (by decide)
  simp [MakeXorConstantMacro, MakeXorConstantImpl, h1, isArithmetic,
    Except.map, GetCryptTyped, staticCastFromU64, h2]

/-- C6 counterexample: the floating-point constant `3.14` (the rational
`157/50`), built through the `MakeXorConstant` macro in the one-byte
file path `"a"`, decrypts to `3.0`, which is not the original value:
the round trip is not bit-identical. -/
theorem C6_counterexample :
    (MakeXorConstantMacro .floatingPoint fnvOffsetBasis [97]
        (.floatVal (157 / 50))).map
        (fun c => (GetCryptTyped .floatingPoint c).1)
      = .ok (.floatVal 3) ∧
    (3 : ℚ) ≠ 157 / 50 :=
  ⟨float_scenario fnvOffsetBasis [97], by norm_num⟩

/-- C6 (amended). A floating-point constant such as `3.14` constructed
through the public entry point round-trips to the truncation of its
value cast back to floating point — `3.14` decrypts to `3.0`, not to
the bit-identical original; the bit-identical round trip the spec
states fails for every non-integral floating-point constant. -/
theorem C6_float_scenario (basis : Nat) (path : List Nat) :
    (MakeXorConstantMacro .floatingPoint basis path
        (.floatVal (157 / 50))).map
        (fun c => (GetCryptTyped .floatingPoint c).1)
      = .ok (.floatVal 3) ∧
    (3 : ℚ) ≠ 157 / 50 :=
  ⟨float_scenario basis path, by norm_num⟩

lemma U64MOD_num : U64MOD = 18446744073709551616 := by
  norm_num [U64MOD]

lemma staticCastToU64_int_lt (i : Int) :
    staticCastToU64 (.intVal i) < U64MOD := by
  show (i % (2 ^ 64 : Int)).toNat < U64MOD
  have h1 : i % (2 ^ 64 : ℤ) < 2 ^ 64 := Int.emod_lt_of_pos i (by positivity)
  have h0 : (0:ℤ) ≤ i % (2 ^ 64 : ℤ) := Int.emod_nonneg i (by positivity)
  rw [U64MOD_num]
  norm_num at h1 h0 ⊢
  omega

lemma truncTowardZero_nonneg {q : ℚ} (h : 0 ≤ q) :
    0 ≤ truncTowardZero q := by
  rw [truncTowardZero_eq_floor h]
  exact Int.floor_nonneg.mpr h

lemma staticCastToU64_float_lt {q : ℚ} (h0 : 0 ≤ q) (h1 : q < 2 ^ 53) :
    staticCastToU64 (.floatVal q) < U64MOD := by
  show (truncTowardZero q).toNat < U64MOD
  have ht0 : 0 ≤ truncTowardZero q := truncTowardZero_nonneg h0
  have ht1 : truncTowardZero q < 2 ^ 53 := by
    rw [truncTowardZero_eq_floor h0]
    exact Int.floor_lt.mpr (by exact_mod_cast h1)
  rw [U64MOD_num]
  norm_num at ht1
  omega

lemma cast_toNat_rat {t : Int} (h : 0 ≤ t) :
    ((t.toNat : ℕ) : ℚ) = (t : ℚ) := by
  exact_mod_cast congrArg (Int.cast : ℤ → ℚ) (Int.toNat_of_nonneg h)

lemma cast_mod_pow (w : Nat) (i : Int) (h64 : w ≤ 64) :
    (((i % (2 ^ 64 : Int)).toNat % 2 ^ w : ℕ) : ℤ) = i % 2 ^ w := by
  have hn : (((i % (2 ^ 64 : Int)).toNat : ℕ) : ℤ) = i % 2 ^ 64 :=
    Int.toNat_of_nonneg (Int.emod_nonneg i (by positivity))
  rw [Int.natCast_mod, Nat.cast_pow, Nat.cast_ofNat, hn,
    Int.emod_emod_of_dvd i (pow_dvd_pow 2 h64)]

lemma signed_cast_round (w : Nat) (i : Int) (h0 : 0 < w) (h64 : w ≤ 64)
    (hlo : -(2 ^ (w - 1)) ≤ i) (hhi : i < 2 ^ (w - 1)) :
    staticCastFromU64 (.signedInt w) ((i % (2 ^ 64 : Int)).toNat)
      = .intVal i := by
  have hH : (0:ℤ) < 2 ^ (w - 1) := by positivity
  have hW2 : ((2:ℤ)) ^ w = 2 * 2 ^ (w - 1) := by
    conv_lhs => rw [show w = (w - 1) + 1 from (Nat.succ_pred_eq_of_pos h0).symm]
    rw [pow_succ]; ring
  have hmod := cast_mod_pow w i h64
  have hcastH : (((2 : ℕ) ^ (w - 1) : ℕ) : ℤ) = 2 ^ (w - 1) := by
    push_cast; ring
  simp only [staticCastFromU64]
  rcases le_or_lt 0 i with hpos | hneg
  · have hiW : i % 2 ^ w = i := Int.emod_eq_of_lt hpos (by linarith)
    have hcond : (i % (2 ^ 64 : Int)).toNat % 2 ^ w < 2 ^ (w - 1) := by
      have h2 : (((i % (2 ^ 64 : Int)).toNat % 2 ^ w : ℕ) : ℤ)
          < (((2 : ℕ) ^ (w - 1) : ℕ) : ℤ) := by
        rw [hmod, hiW, hcastH]; exact hhi
      exact_mod_cast h2
    rw [if_pos hcond]
    congr 1
    rw [hmod, hiW]
  · have hiW : i % 2 ^ w = i + 2 ^ w := by
      have h1 : i % 2 ^ w = (i + 2 ^ w * 1) % 2 ^ w :=
        (Int.add_mul_emod_self_left i (2 ^ w) 1).symm
      rw [mul_one] at h1
      rw [h1]
      exact Int.emod_eq_of_lt (by linarith) (by linarith)
    have hcond : ¬ ((i % (2 ^ 64 : Int)).toNat % 2 ^ w < 2 ^ (w - 1)) := by
      intro hc
      have h2 : (((i % (2 ^ 64 : Int)).toNat % 2 ^ w : ℕ) : ℤ)
          < (((2 : ℕ) ^ (w - 1) : ℕ) : ℤ) := by exact_mod_cast hc
      rw [hmod, hiW, hcastH] at h2
      linarith
    rw [if_neg hcond]
    congr 1
    rw [hmod, hiW]
    ring

lemma unsigned_cast_round (w : Nat) (i : Int) (h64 : w ≤ 64)
    (h0i : 0 ≤ i) (hhi : i < 2 ^ w) :
    staticCastFromU64 (.unsignedInt w) ((i % (2 ^ 64 : Int)).toNat)
      = .intVal i := by
  simp only [staticCastFromU64]
  congr 1
  rw [cast_mod_pow w i h64, Int.emod_eq_of_lt h0i hhi]

lemma macro_pipeline (t : CType) (ht : isArithmetic t = true)
    (basis : Nat) (path : List Nat) (v : CValue)
    (hlt : staticCastToU64 v < U64MOD) :
    (MakeXorConstantMacro t basis path v).map
        (fun c => (GetCryptTyped t c).1)
      = .ok (staticCastFromU64 t (staticCastToU64 v)) := by
  simp [MakeXorConstantMacro, MakeXorConstantImpl, ht, Except.map,
    GetCryptTyped, GetCrypt_mkXorConstant _ _ hlt]

/-- C10. The `MakeXorConstant` macro casts the protected value with
`static_cast<uint64_t>` before encryption: a floating-point constant is
encrypted as its integral truncation, and the decrypting accessor
returns `static_cast<T>` of that truncated integer (so `3.14` decrypts
to `3.0`); for signed and unsigned integral types of any width up to
64, the truncate-then-extend round trip is exact. -/
theorem C10_cast_semantics :
    (∀ (basis : Nat) (path : List Nat) (q : ℚ), 0 ≤ q → q < 2 ^ 53 →
      (MakeXorConstantMacro .floatingPoint basis path (.floatVal q)).map
          (fun c => (GetCryptTyped .floatingPoint c).1)
        = .ok (.floatVal ((truncTowardZero q : ℤ) : ℚ))) ∧
    (∀ (basis : Nat) (path : List Nat) (w : Nat) (i : Int),
      0 < w → w ≤ 64 → -(2 ^ (w - 1)) ≤ i → i < 2 ^ (w - 1) →
      (MakeXorConstantMacro (.signedInt w) basis path (.intVal i)).map
          (fun c => (GetCryptTyped (.signedInt w) c).1)
        = .ok (.intVal i)) ∧
    (∀ (basis : Nat) (path : List Nat) (w : Nat) (i : Int),
      w ≤ 64 → 0 ≤ i → i < 2 ^ w →
      (MakeXorConstantMacro (.unsignedInt w) basis path (.intVal i)).map
          (fun c => (GetCryptTyped (.unsignedInt w) c).1)
        = .ok (.intVal i)) := by
  refine ⟨?_, ?_, ?_⟩
  · intro basis path q h0 h1
    rw [macro_pipeline .floatingPoint rfl basis path _
      (staticCastToU64_float_lt h0 h1)]
    simp only [staticCastFromU64, staticCastToU64]
    rw [cast_toNat_rat (truncTowardZero_nonneg h0)]
  · intro basis path w i hw h64 hlo hhi
    rw [macro_pipeline (.signedInt w) rfl basis path _
      (staticCastToU64_int_lt i)]
    show Except.ok (staticCastFromU64 (.signedInt w)
      ((i % (2 ^ 64 : Int)).toNat)) = _
    rw [signed_cast_round w i hw h64 hlo hhi]
  · intro basis path w i h64 h0i hhi
    rw [macro_pipeline (.unsignedInt w) rfl basis path _
      (staticCastToU64_int_lt i)]
    show Except.ok (staticCastFromU64 (.unsignedInt w)
      ((i % (2 ^ 64 : Int)).toNat)) = _
    rw [unsigned_cast_round w i h64 h0i hhi]

/-- Witness for C10: the 32-bit signed constant `-5` round-trips
exactly through the macro and the decrypting accessor. -/
theorem C10_cast_semantics_witness :
    (MakeXorConstantMacro (.signedInt 32) fnvOffsetBasis [97]
        (.intVal (-5))).map
        (fun c => (GetCryptTyped (.signedInt 32) c).1)
      = .ok (.intVal (-5)) :=
  C10_cast_semantics.2.1 fnvOffsetBasis [97] 32 (-5)
    (by norm_num) (by norm_num) (by norm_num) (by norm_num)

end XorData
